import Mathlib

/-!
Verification of the pghoard base-backup subsystem specification against the
repository sources.  The development shallowly embeds the Python code of
`pghoard/object_store.py` (and, where the deciding code is not part of the
provided sources, models the behaviour from the specification text) and
proves or refutes the frozen claims about it.

Conventions:
* Python dictionaries are embedded as association lists with an
  insert-or-replace update.
* Python exceptions are embedded with `Except`; a `try/except` wrapper
  becomes a total function matching on the `Except` outcome.
* `datetime.datetime` values are embedded as a record of calendar fields
  plus an optional fixed UTC offset in minutes (`none` embeds a naive
  datetime).
-/

namespace Pghoard

/-- Left-pad the decimal rendering of a natural number with zeros. -/
def padNum (width : Nat) (n : Nat) : String :=
  let s := toString n
  if s.length < width then String.mk (List.replicate (width - s.length) '0') ++ s else s

/-- Embedding of Python `datetime.datetime`: calendar fields plus an optional
fixed timezone offset in minutes east of UTC (`none` embeds a naive value). -/
structure PyDateTime where
  year : Nat
  month : Nat
  day : Nat
  hour : Nat
  minute : Nat
  second : Nat
  microsecond : Nat
  offsetMinutes : Option Int
deriving DecidableEq, Repr

/-- Rendering of a fixed UTC offset as Python does in `str`/`isoformat`,
for example `+00:00` or `-05:30`. -/
def pyOffsetStr (off : Int) : String :=
  let sign := if off < 0 then "-" else "+"
  let a := off.natAbs
  sign ++ padNum 2 (a / 60) ++ ":" ++ padNum 2 (a % 60)

/-- The common date/time field rendering shared by Python `str(datetime)` and
`datetime.isoformat`, differing only in the separator between date and time.
Microseconds are printed only when nonzero, the offset only when aware. -/
def pyDatetimeRender (sep : String) (d : PyDateTime) : String :=
  padNum 4 d.year ++ "-" ++ padNum 2 d.month ++ "-" ++ padNum 2 d.day ++ sep ++
    padNum 2 d.hour ++ ":" ++ padNum 2 d.minute ++ ":" ++ padNum 2 d.second ++
    (if d.microsecond = 0 then "" else "." ++ padNum 6 d.microsecond) ++
    (match d.offsetMinutes with
     | none => ""
     | some off => pyOffsetStr off)

/-- Embedding of Python `str(datetime)`: space-separated date and time. -/
def pyDatetimeStr (d : PyDateTime) : String :=
  pyDatetimeRender " " d

/-- Embedding of Python `datetime.isoformat()`: `T`-separated date and time. -/
def pyDatetimeIso (d : PyDateTime) : String :=
  pyDatetimeRender "T" d

/-- The characters after the last separator of a character list: accumulate
characters and restart at every `/`. -/
def afterLastSlash (l : List Char) : List Char :=
  l.foldl (fun acc c => if c = '/' then [] else acc ++ [c]) []

/-- Remove trailing separators from a character list. -/
def dropTrailingSlashes (l : List Char) : List Char :=
  (l.reverse.dropWhile (fun c => c = '/')).reverse

/-- Embedding of `pathlib.Path(s).name`: trailing separators are ignored and
the component after the last separator is returned. -/
def pathName (s : String) : String :=
  String.mk (afterLastSlash (dropTrailingSlashes s.data))

/-- Whether a string starts with the path separator, the test made by
`os.path.join` on its non-first arguments. -/
def headIsSlash (s : String) : Bool :=
  s.data.head? = some '/'

/-- Whether a string ends with the path separator, the test made by
`os.path.join` before inserting a separator. -/
def lastIsSlash (s : String) : Bool :=
  s.data.getLast? = some '/'

/-- Embedding of the two-argument `os.path.join` for POSIX paths as used by
the repository (no drive letters): an absolute second component replaces the
first, otherwise a single separator is inserted unless one is present. -/
def osPathJoin (a b : String) : String :=
  if headIsSlash b then b
  else if a = "" ∨ lastIsSlash a then a ++ b
  else a ++ "/" ++ b

/-- Embedding of the three-argument `os.path.join`. -/
def osPathJoin3 (a b c : String) : String :=
  osPathJoin (osPathJoin a b) c

/-- A stored object-store blob: its byte content and per-key metadata, both
embedded as strings. -/
structure Blob where
  content : String
  meta : List (String × String)
deriving DecidableEq, Repr

/-- The object store: an association list from keys to blobs. -/
abbrev Store : Type := List (String × Blob)

/-- Association-list lookup (first matching key). -/
def alookup {β : Type} : List (String × β) → String → Option β
  | [], _ => none
  | e :: t, k => if e.1 = k then some e.2 else alookup t k

/-- Association-list insert-or-replace, the embedding of a dictionary or
object-store `put` on an existing or fresh key. -/
def aset {β : Type} : List (String × β) → String → β → List (String × β)
  | [], k, v => [(k, v)]
  | e :: t, k, v => if e.1 = k then (k, v) :: t else e :: aset t k v

/-- Embedding of rohmu `store_file_from_memory`: store a blob at a key. -/
def storeFileFromMemory (st : Store) (key content : String)
    (meta : List (String × String)) : Store :=
  aset st key ⟨content, meta⟩

/-- Embedding of rohmu `delete_key`: remove the key from the store. -/
def deleteKey (st : Store) (key : String) : Store :=
  List.filter (fun e => decide (e.1 ≠ key)) st

/-- Embedding of rohmu `list_path`: the entries directly under a prefix. -/
def listPath (st : Store) (pfx : String) : List (String × Blob) :=
  List.filter (fun e => e.1.startsWith (pfx ++ "/")) st

/-- Embedding of `BaseBackupInfoFromBucket.request_backup_preservation` from
`pghoard/object_store.py`: computes the leaf request name from the basename
of the manifest key and the stringified deadline, stores an empty blob with
the preservation metadata at the joined request path, and returns the new
store together with the returned request name. -/
def requestBackupPreservation (st : Store) (pfx selfName : String)
    (preserveUntil : PyDateTime) : Store × String :=
  let backupName := pathName selfName
  let requestName := backupName ++ "_" ++ pyDatetimeStr preserveUntil
  let requestPath := osPathJoin3 pfx "preservation_request" requestName
  (storeFileFromMemory st requestPath ""
      [("preserve-backup", backupName), ("preserve-until", pyDatetimeStr preserveUntil)],
   requestName)

/-- Embedding of `BaseBackupInfoFromBucket.cancel_backup_preservation` from
`pghoard/object_store.py`: deletes the blob at the joined request path. -/
def cancelBackupPreservation (st : Store) (pfx requestName : String) : Store :=
  deleteKey st (osPathJoin3 pfx "preservation_request" requestName)

/-- The outcomes of the underlying rohmu storage calls, which may raise
arbitrary exceptions (embedded as `Except` with a message): a successful
`store_file_from_memory` or `delete_key` yields the resulting store. -/
structure StorageOps where
  putOutcome : String → String → List (String × String) → Except String Store
  delOutcome : String → Except String Store

/-- Exception-propagating embedding of `request_backup_preservation` over a
fallible storage: on success it returns the stored-to store and the request
name, a storage exception propagates. -/
def requestBackupPreservationE (ops : StorageOps) (pfx selfName : String)
    (preserveUntil : PyDateTime) : Except String (Store × String) :=
  let backupName := pathName selfName
  let requestName := backupName ++ "_" ++ pyDatetimeStr preserveUntil
  let requestPath := osPathJoin3 pfx "preservation_request" requestName
  match ops.putOutcome requestPath ""
      [("preserve-backup", backupName), ("preserve-until", pyDatetimeStr preserveUntil)] with
  | .error e => .error e
  | .ok st => .ok (st, requestName)

/-- Embedding of `try_request_backup_preservation`: calls the propagating
version and swallows any exception, returning `none` (the error is logged). -/
def tryRequestBackupPreservation (ops : StorageOps) (pfx selfName : String)
    (preserveUntil : PyDateTime) : Option String :=
  match requestBackupPreservationE ops pfx selfName preserveUntil with
  | .ok (_, requestName) => some requestName
  | .error _ => none

/-- Exception-propagating embedding of `cancel_backup_preservation` over a
fallible storage. -/
def cancelBackupPreservationE (ops : StorageOps) (pfx requestName : String) :
    Except String Store :=
  ops.delOutcome (osPathJoin3 pfx "preservation_request" requestName)

/-- Embedding of `try_cancel_backup_preservation`: calls the propagating
version and swallows any exception; on an exception the store is left as it
was and the function still returns normally. -/
def tryCancelBackupPreservation (ops : StorageOps) (pfx requestName : String)
    (st : Store) : Store :=
  match cancelBackupPreservationE ops pfx requestName with
  | .ok st' => st'
  | .error _ => st


/-- A sample aware datetime: 2022-12-18T10:20:30.123456+00:00, used by the
concrete preservation scenarios. -/
def sampleDt : PyDateTime :=
  PyDateTime.mk 2022 12 18 10 20 30 123456 (some 0)

/-- A storage whose operations always raise, for the C3 witness. -/
def failingOps : StorageOps :=
  StorageOps.mk (fun _ _ _ => .error "boom") (fun _ => .error "boom")

/-- A JSON element of the `basebackups` array returned by the agent's HTTP
enumeration API: its `name` field and the remaining fields of the element. -/
structure JsonBackupObj where
  nameField : String
  fields : List (String × String)
deriving DecidableEq, Repr

/-- Embedding of a `BaseBackupInfo` as built by `HTTPRestore`: logical name,
the whole JSON element as its data, and the site. -/
structure HttpBaseBackupInfo where
  name : String
  data : JsonBackupObj
  site : String
deriving DecidableEq, Repr

/-- Embedding of `HTTPRestore._url` from `pghoard/object_store.py`. -/
def httpUrl (host port site path : String) : String :=
  "http://" ++ host ++ ":" ++ port ++ "/" ++ site ++ "/" ++ path

/-- Embedding of `HTTPRestore.list_basebackups` from `pghoard/object_store.py`:
for each configured site, GET the site's basebackup URL (the HTTP session is
embedded as a function from the request URL to the decoded `basebackups`
array) and append one entry per element of the response. -/
def httpListBasebackups (host port : String) (sites : List String)
    (fetch : String → List JsonBackupObj) : List HttpBaseBackupInfo :=
  sites.foldl
    (fun result site =>
      (fetch (httpUrl host port site "basebackup")).foldl
        (fun result b => result ++ [HttpBaseBackupInfo.mk b.nameField b site])
        result)
    []


/-- A Python value as found in a backup entry's metadata mapping: a string,
an integer, or a datetime. -/
inductive PyVal where
  | vStr (s : String)
  | vInt (n : Int)
  | vDt (d : PyDateTime)
deriving DecidableEq, Repr

/-- A Python dictionary with string keys, as an association list. -/
abbrev PyMeta : Type := List (String × PyVal)

/-- Embedding of Python `dict.pop(key)` without a default: the value and the
dictionary with the key removed, or `none` for the `KeyError` case. -/
def apop : PyMeta → String → Option (PyVal × PyMeta)
  | [], _ => none
  | e :: t, k =>
    if e.1 = k then some (e.2, t)
    else
      match apop t k with
      | none => none
      | some (v, t') => some (v, e :: t')

/-- Embedding of Python `int(x)`: parse a string, keep an integer, and fail
(`TypeError`) on a datetime. -/
def pyToInt : PyVal → Option Int
  | .vStr s => s.toInt?
  | .vInt n => some n
  | .vDt _ => none

/-- Python truthiness of a metadata value (`or 0` replaces falsy values). -/
def pyFalsy : PyVal → Bool
  | .vStr s => s = ""
  | .vInt n => n = 0
  | .vDt _ => false

/-- Days since 1970-01-01 of a proleptic Gregorian civil date (the standard
era-based conversion), used to move aware datetimes to UTC. -/
def daysFromCivil (y m d : Int) : Int :=
  let y2 := if m ≤ 2 then y - 1 else y
  let era := (if 0 ≤ y2 then y2 else y2 - 399) / 400
  let yoe := y2 - era * 400
  let mp := (m + 9) % 12
  let doy := (153 * mp + 2) / 5 + d - 1
  let doe := yoe * 365 + yoe / 4 - yoe / 100 + doy
  era * 146097 + doe - 719468

/-- Inverse of `daysFromCivil`: the civil date of a day number. -/
def civilFromDays (z0 : Int) : Int × Int × Int :=
  let z := z0 + 719468
  let era := (if 0 ≤ z then z else z - 146096) / 146097
  let doe := z - era * 146097
  let yoe := (doe - doe / 1460 + doe / 36524 - doe / 146096) / 365
  let y := yoe + era * 400
  let doy := doe - (365 * yoe + yoe / 4 - yoe / 100)
  let mp := (5 * doy + 2) / 153
  let d := doy - (153 * mp + 2) / 5 + 1
  let m := if mp < 10 then mp + 3 else mp - 9
  (if m ≤ 2 then y + 1 else y, m, d)

/-- Embedding of `datetime.astimezone(timezone.utc)` on an aware value:
shift the calendar fields by the offset; seconds and microseconds are
unaffected because offsets are whole minutes.  Naive values are returned
unchanged (the printing code only converts aware ones). -/
def astimezoneUtc (dt : PyDateTime) : PyDateTime :=
  match dt.offsetMinutes with
  | none => dt
  | some off =>
    let total := daysFromCivil dt.year dt.month dt.day * 1440 +
      (dt.hour : Int) * 60 + (dt.minute : Int) - off
    let days := Int.fdiv total 1440
    let rem := Int.fmod total 1440
    let c := civilFromDays days
    PyDateTime.mk c.1.toNat c.2.1.toNat c.2.2.toNat (Int.fdiv rem 60).toNat
      (Int.fmod rem 60).toNat dt.second dt.microsecond (some 0)

/-- Embedding of `.replace(tzinfo=None)`. -/
def dropTz (dt : PyDateTime) : PyDateTime :=
  PyDateTime.mk dt.year dt.month dt.day dt.hour dt.minute dt.second
    dt.microsecond none

/-- The `data` dictionary of a listed basebackup as used by
`print_basebackup_list`: its `metadata` mapping and its `size` field. -/
structure BBData where
  metadata : PyMeta
  size : Int
deriving DecidableEq, Repr

/-- Embedding of `BaseBackupInfo` for the printing claims. -/
structure BBInfo where
  name : String
  data : BBData
  site : String
deriving DecidableEq, Repr

/-- One printed row of `print_basebackup_list`: the four formatted columns
and, for verbose mode, the metadata left after popping `start-time`. -/
structure Row where
  name : String
  sizeStr : String
  timeStr : String
  origSizeStr : String
  verboseMeta : PyMeta
deriving DecidableEq, Repr

/-- The row computation of the `print_basebackup_list` loop body after the
metadata copy has been popped: formats the start time (strings are parsed by
the injected external `rohmu.dates.parse_timestamp`, aware values are moved
to UTC and made naive), the backup size in MB from `total-size-enc` or the
entry size, and the original size from `total-size-plain` or
`original-file-size` with falsy values replaced by zero.  `none` embeds a
raised exception. -/
def renderRowFrom (parseTs : String → PyDateTime) (name : String) (size : Int)
    (lmv : PyVal) (meta : PyMeta) : Option Row :=
  let lmOpt : Option PyDateTime :=
    match lmv with
    | .vStr s => some (parseTs s)
    | .vDt d => some d
    | .vInt _ => none
  match lmOpt with
  | none => none
  | some lm0 =>
    let lm := if lm0.offsetMinutes.isSome then dropTz (astimezoneUtc lm0) else lm0
    let lmStr := (pyDatetimeIso lm).take 19 ++ "Z"
    let sizeSrc : Option Int :=
      match alookup meta "total-size-enc" with
      | some v => pyToInt v
      | none => some size
    match sizeSrc with
    | none => none
    | some sz =>
      let sizeStr := toString (Int.fdiv sz (1024 * 1024)) ++ " MB"
      let origSrc : Option PyVal :=
        match alookup meta "total-size-plain" with
        | some v => some v
        | none => alookup meta "original-file-size"
      let origIntOpt : Option Int :=
        match origSrc with
        | none => some 0
        | some v => if pyFalsy v then some 0 else pyToInt v
      match origIntOpt with
      | none => none
      | some osz =>
        let origStr :=
          if osz ≠ 0 then toString (Int.fdiv osz (1024 * 1024)) ++ " MB" else "n/a"
        some (Row.mk name sizeStr lmStr origStr meta)

/-- The loop body of `print_basebackup_list` on one entry under value
semantics: copy the metadata (pure values need no copy), pop `start-time`
(`none` embeds the `KeyError`), and format the row. -/
def renderRow (parseTs : String → PyDateTime) (b : BBInfo) : Option Row :=
  match apop b.data.metadata "start-time" with
  | none => none
  | some (lmv, meta) => renderRowFrom parseTs b.name b.data.size lmv meta

/-- The rows printed by the loop: printing stops at the first entry whose
body raises. -/
def rowsUntilError (parseTs : String → PyDateTime) : List BBInfo → List Row
  | [] => []
  | b :: t =>
    match renderRow parseTs b with
    | some r => r :: rowsUntilError parseTs t
    | none => []

/-- Lexicographic code-point comparison of character lists, the embedding of
Python string comparison used by `sorted` on backup names. -/
def charListLe : List Char → List Char → Bool
  | [], _ => true
  | _ :: _, [] => false
  | c :: cs, d :: ds =>
    if c.toNat < d.toNat then true
    else if d.toNat < c.toNat then false
    else charListLe cs ds

/-- The name ordering of the printed list: Python string comparison. -/
def nameLe (s1 s2 : String) : Bool :=
  charListLe s1.data s2.data

/-- The strict version of `nameLe`, used to state uniqueness of the sorted
order for duplicate-free names. -/
def nameLtStrict (s1 s2 : String) : Prop :=
  nameLe s1 s2 = true ∧ s1 ≠ s2

instance : DecidableRel (fun a b : BBInfo => nameLe a.name b.name = true) :=
  fun a b => instDecidableEqBool (nameLe a.name b.name) true

/-- Embedding of `sorted(basebackups, key=lambda b: b.name)`: Python sorted
is a stable sort by the key, embedded as stable insertion sort. -/
def sortByName (l : List BBInfo) : List BBInfo :=
  List.insertionSort (fun a b => nameLe a.name b.name = true) l

/-- Embedding of `print_basebackup_list` from `pghoard/object_store.py`: the
sequence of data rows printed for the given entries (the caption and header
rows are fixed text and omitted). -/
def printBasebackupRows (parseTs : String → PyDateTime) (l : List BBInfo) :
    List Row :=
  rowsUntilError parseTs (sortByName l)

/-- A heap of metadata dictionaries, making Python aliasing explicit for the
frame claim: entries point into the heap and `dict.copy` allocates. -/
abbrev MetaHeap : Type := List PyMeta

/-- A listed basebackup whose `data` holds a reference to its metadata
dictionary on the heap. -/
structure BBInfoH where
  name : String
  metaRef : Nat
  size : Int
  site : String
deriving DecidableEq, Repr

instance : DecidableRel (fun a b : BBInfoH => nameLe a.name b.name = true) :=
  fun a b => instDecidableEqBool (nameLe a.name b.name) true

/-- The loop body of `print_basebackup_list` with explicit dictionary
aliasing: `meta = basebackup.data["metadata"].copy()` allocates a fresh heap
cell, and the subsequent `meta.pop("start-time")` mutates only that fresh
cell.  Returns the row outcome and the heap after the body. -/
def renderRowH (parseTs : String → PyDateTime) (heap : MetaHeap) (b : BBInfoH) :
    Option Row × MetaHeap :=
  match heap[b.metaRef]? with
  | none => (none, heap)
  | some m0 =>
    let copyIdx := heap.length
    let heap1 := heap ++ [m0]
    match apop m0 "start-time" with
    | none => (none, heap1)
    | some (lmv, m') =>
      let heap2 := heap1.set copyIdx m'
      (renderRowFrom parseTs b.name b.size lmv m', heap2)

/-- The printing loop over the sorted entries with explicit aliasing,
stopping at the first raising body. -/
def printGoH (parseTs : String → PyDateTime) :
    MetaHeap → List BBInfoH → List Row × MetaHeap
  | heap, [] => ([], heap)
  | heap, b :: t =>
    match renderRowH parseTs heap b with
    | (none, heap1) => ([], heap1)
    | (some r, heap1) =>
      let res := printGoH parseTs heap1 t
      (r :: res.1, res.2)

/-- Embedding of `print_basebackup_list` with explicit dictionary aliasing:
sort by name, then run the loop. -/
def printBasebackupListH (parseTs : String → PyDateTime) (heap : MetaHeap)
    (l : List BBInfoH) : List Row × MetaHeap :=
  printGoH parseTs heap
    (List.insertionSort (fun a b => nameLe a.name b.name = true) l)


/-- A naive datetime used by the printing scenarios. -/
def naiveDt : PyDateTime := PyDateTime.mk 2015 2 12 14 7 19 0 none

/-- Two listed backups sharing the name `a` but with different sizes, for
the duplicate-name counterexample. -/
def dupEntryA : BBInfo := BBInfo.mk "a" (BBData.mk [("start-time", PyVal.vDt naiveDt)] 0) "s"

/-- Second entry of the duplicate-name counterexample. -/
def dupEntryB : BBInfo :=
  BBInfo.mk "a" (BBData.mk [("start-time", PyVal.vDt naiveDt)] (4 * 1024 * 1024)) "s"


/-- The reason recorded for a new backup decision. -/
inductive BackupReason where
  | scheduled
  | requested
deriving DecidableEq, Repr

/-- The metadata stub emitted by a positive scheduler decision: reason,
decision time and the normalized backup time (absolute seconds, `none` when
no schedule is configured). -/
structure BackupDecision where
  reason : BackupReason
  decisionTime : Int
  normalized : Option Int
deriving DecidableEq, Repr

/-- The fields of the most recent existing backup entry that the scheduler
consults. -/
structure LastBackup where
  startTime : Int
  normalized : Option Int
deriving DecidableEq, Repr

/-- Modelled from the spec: `get_normalized_backup_time` of the scheduler
(pghoard/pghoard.py is not part of the provided sources).  `normalized(now)`
is the nearest past instant of the form `<hour>:<minute>:00Z` shifted by
integer multiples of the interval such that it is at most `now`; times are
absolute seconds since the epoch, and with no schedule it is `none`. -/
def normalizedBackupTime (now : Int) (sched : Option (Nat × Nat))
    (intervalSecs : Int) : Option Int :=
  match sched with
  | none => none
  | some hm =>
    let tod : Int := (hm.1 : Int) * 3600 + (hm.2 : Int) * 60
    let dayStart := (now / 86400) * 86400
    let anchor := if dayStart + tod ≤ now then dayStart + tod else dayStart + tod - 86400
    some (anchor + intervalSecs * ((now - anchor) / intervalSecs))

/-- Modelled from the spec: the decision algorithm of
`get_new_backup_details` (spec section 4.F; pghoard/pghoard.py is not part of
the provided sources).  A manual trigger always yields a `requested` backup;
with no existing backup a `scheduled` one; otherwise a `scheduled` backup
exactly when the normalized time differs from the last entry's and at least
one interval has passed since the last entry's start time. -/
def getNewBackupDetails (now : Int) (sched : Option (Nat × Nat))
    (intervalSecs : Int) (last : Option LastBackup) (manual : Bool) :
    Option BackupDecision :=
  let normalized := normalizedBackupTime now sched intervalSecs
  if manual then some (BackupDecision.mk .requested now normalized)
  else
    match last with
    | none => some (BackupDecision.mk .scheduled now normalized)
    | some lb =>
      if normalized ≠ lb.normalized ∧ intervalSecs ≤ now - lb.startTime then
        some (BackupDecision.mk .scheduled now normalized)
      else none

/-- The `THH:MM:SS+00:00` rendering of the time of day of an absolute
second count, the portion of the isoformat checked by the scenarios. -/
def isoTimeOfDay (t : Int) : String :=
  let s := t % 86400
  "T" ++ padNum 2 (s / 3600).toNat ++ ":" ++ padNum 2 ((s % 3600) / 60).toNat ++
    ":" ++ padNum 2 (s % 60).toNat ++ "+00:00"


/-- The format recorded in a remote basebackup's metadata. -/
inductive BBFormat where
  | v1
  | v2
  | delta_v1
  | delta_v2
  | local_tar_delta_stats
deriving DecidableEq, Repr

/-- A remote basebackup as listed by `get_remote_basebackups_info`: its name
and its metadata format. -/
structure RemoteBackup where
  name : String
  format : BBFormat
deriving DecidableEq, Repr

/-- A downloaded backup manifest, reduced to the part the delta engine
reads: its `delta_stats.hashes` map (hex digest to content length), absent
when the manifest has no delta stats. -/
structure BackupMeta where
  deltaHashes : Option (List (String × Int))
deriving DecidableEq, Repr

/-- Modelled from the spec: the delta engine fetches every manifest format
except the too-old `v1` (spec section 4.E and its open-questions note:
`v2`, `delta-v1`, `delta-v2` and `local-tar-delta-stats` are included). -/
def formatFetched : BBFormat → Bool
  | .v1 => false
  | _ => true

/-- Embedding of Python `dict.update`: insert-or-replace every pair of the
second map into the first. -/
def updateAll (m new : List (String × Int)) : List (String × Int) :=
  new.foldl (fun acc e => aset acc e.1 e.2) m

/-- Modelled from the spec: `fetch_all_data_files_hashes` of the delta
engine (pghoard/basebackup/base.py is not part of the provided sources).
Walk the remote basebackups, skip the formats that are not fetched, download
each remaining manifest blob at `prefix/basebackup/<name>` and merge its
`delta_stats.hashes` into one map. -/
def fetchAllDataFilesHashes (pfx : String) (backups : List RemoteBackup)
    (download : String → BackupMeta) : List (String × Int) :=
  backups.foldl
    (fun hashes b =>
      if formatFetched b.format then
        updateAll hashes
          ((download (osPathJoin3 pfx "basebackup" b.name)).deltaHashes.getD [])
      else hashes)
    []

/-- The union of the `delta_stats.hashes` of exactly the backups whose
format lies in the given list, written following the spec's words (filter
the listed formats, then merge); used to compare the code's loop against the
claim's format list and the amended one. -/
def unionHashesOf (allowed : List BBFormat) (pfx : String)
    (backups : List RemoteBackup) (download : String → BackupMeta) :
    List (String × Int) :=
  (backups.filter (fun b => allowed.contains b.format)).foldl
    (fun hashes b =>
      updateAll hashes
        ((download (osPathJoin3 pfx "basebackup" b.name)).deltaHashes.getD []))
    []

/-- The remote basebackup list of the delta-hash scenario: formats v1, three
times v2, delta-v1, delta-v2. -/
def sixBackups : List RemoteBackup :=
  [RemoteBackup.mk "backup0" .v1, RemoteBackup.mk "backup1" .v2,
   RemoteBackup.mk "backup2" .v2, RemoteBackup.mk "backup3" .v2,
   RemoteBackup.mk "backup4" .delta_v1, RemoteBackup.mk "backup5" .delta_v2]

/-- The manifest downloads of the delta-hash scenario: backup2 and backup3
carry two hashes each (one shared), backup4 an empty map, the rest no delta
stats. -/
def sixDownload : String → BackupMeta := fun path =>
  if path = "a/b/c/basebackup/backup2" then
    BackupMeta.mk (some
      [("8ee55c458dde7fd7ea43b946dfb3c9713a360280ee2927e600b9d6d4630ef3fd", 1636),
       ("7e0c70d50c0ccd9ca4cb8c6837fbfffb4ef7e885aa1c6370fcfc307541a03e27", 8192)])
  else if path = "a/b/c/basebackup/backup3" then
    BackupMeta.mk (some
      [("8ee55c458dde7fd7ea43b946dfb3c9713a360280ee2927e600b9d6d4630ef3fd", 1636),
       ("7e0c70d50c0ccd9ca4cb8c6837fbfffb4ef7e885aa1c6370fcfc307541a03e28", 800)])
  else if path = "a/b/c/basebackup/backup4" then BackupMeta.mk (some [])
  else BackupMeta.mk none

/-- A string starts with another, on the character lists (the labels are
plain ASCII). -/
def strStartsWith (s p : String) : Bool :=
  s.data.take p.data.length = p.data

/-- Strip a character from both ends of a string, the embedding of Python
`strip(c)`. -/
def stripChar (c : Char) (s : String) : String :=
  String.mk (((s.data.dropWhile (· = c)).reverse.dropWhile (· = c)).reverse)

/-- Split a character list on a separator character. -/
def splitOnChar (c : Char) : List Char → List (List Char)
  | [] => [[]]
  | x :: xs =>
    if x = c then [] :: splitOnChar c xs
    else
      match splitOnChar c xs with
      | [] => [[x]]
      | h :: t => (x :: h) :: t

/-- Split a string on a separator character. -/
def strSplitOnChar (c : Char) (s : String) : List String :=
  (splitOnChar c s.data).map String.mk

/-- Split on single spaces discarding empty words, the embedding of Python
`split()` on the single-spaced label lines. -/
def splitWS (s : String) : List String :=
  (strSplitOnChar (Char.ofNat 32) s).filter (fun w => w ≠ "")

/-- Modelled from the spec: extract the WAL segment from a
`START WAL LOCATION: <lsn> (file <segment>)` line: the sixth word with the
closing parenthesis stripped. -/
def extractSegment (line : String) : Option String :=
  match (splitWS line)[5]? with
  | none => none
  | some w => some (stripChar (Char.ofNat 41) w)

/-- Modelled from the spec: turn the `<iso-ish datetime>` of a
`START TIME:` line (date, time and a UTC timezone word) into the ISO-8601
UTC rendering. -/
def parseLabelTimeText (text : String) : Option String :=
  match splitWS text with
  | [d, t, tz] =>
    if tz = "GMT" ∨ tz = "UTC" then some (d ++ "T" ++ t ++ "+00:00") else none
  | _ => none


/-- The newline separator of the label file. -/
def newlineStr : String :=
  String.mk [Char.ofNat 10]

/-- Modelled from the spec: `parse_backup_label` (pghoard/basebackup/base.py
is not part of the provided sources).  Scan the label lines for
`START WAL LOCATION` and `START TIME: ` and return the WAL segment and the
ISO-8601 UTC start time. -/
def parseBackupLabel (s : String) : Option (String × String) :=
  let lines := strSplitOnChar (Char.ofNat 10) s
  let seg := lines.foldl
    (fun acc line =>
      if strStartsWith line "START WAL LOCATION" then extractSegment line else acc)
    none
  let tm := lines.foldl
    (fun acc line =>
      if strStartsWith line "START TIME: " then
        parseLabelTimeText (String.mk (line.data.drop 12))
      else acc)
    none
  match seg, tm with
  | some a, some b => some (a, b)
  | _, _ => none

/-- Modelled from the spec: `parse_backup_label_in_tar` reads the
`backup_label` member of the tar archive (embedded as an association list
from member names to contents) and parses it. -/
def parseBackupLabelInTar (tar : List (String × String)) :
    Option (String × String) :=
  match alookup tar "backup_label" with
  | none => none
  | some content => parseBackupLabel content


/-- The backup label of the label-parse scenario. -/
def sampleLabel : String :=
  "START WAL LOCATION: 0/4000028 (file 000000010000000000000004)" ++ newlineStr ++
  "CHECKPOINT LOCATION: 0/4000060" ++ newlineStr ++
  "BACKUP METHOD: streamed" ++ newlineStr ++
  "BACKUP FROM: master" ++ newlineStr ++
  "START TIME: 2015-02-12 14:07:19 GMT" ++ newlineStr ++
  "LABEL: pg_basebackup base backup" ++ newlineStr


mutual
/-- A node of the data-directory tree: a file with its size, or a directory
with its children. -/
inductive FsNode where
  | file (size : Nat) : FsNode
  | dir (children : FsForest) : FsNode
/-- A list of named sibling nodes, stored in the emission order of the
walker (spec: siblings in lexical order). -/
inductive FsForest where
  | nil : FsForest
  | cons (name : String) (child : FsNode) (rest : FsForest) : FsForest
end

/-- An entry emitted by the file walker: the archive path as components,
whether it is a directory, and the file size (directories count as zero). -/
structure Entry where
  path : List String
  isDir : Bool
  size : Nat
deriving DecidableEq, Repr

/-- The directory entry of an archive path. -/
def dirEntry (path : List String) : Entry :=
  Entry.mk path true 0

mutual
/-- Modelled from the spec: the file walker on one named node
(`find_files_to_backup` lives in pghoard/basebackup/base.py which is not
part of the provided sources).  Depth first, a directory entry before its
contents. -/
def walkNode (p : List String) (nm : String) : FsNode → List Entry
  | .file sz => [Entry.mk (p ++ [nm]) false sz]
  | .dir cs => dirEntry (p ++ [nm]) :: walkForest (p ++ [nm]) cs

/-- Modelled from the spec: the file walker on a list of siblings, in their
stored (lexical) order. -/
def walkForest (p : List String) : FsForest → List Entry
  | .nil => []
  | .cons nm c rest => walkNode p nm c ++ walkForest p rest
end

/-- The ancestor directory entries re-emitted at a chunk boundary: the
proper prefixes of the path below the data-directory root, shortest
first. -/
def ancestorEntries (path : List String) : List Entry :=
  (List.range' 2 (path.length - 2)).map fun k => dirEntry (path.take k)

/-- Modelled from the spec: the chunk-splitting loop of
`find_and_split_files_to_backup` (spec section 4.C.1).  Directory entries
count as zero and never close a chunk; a file that would push the
accumulated size beyond the target closes the chunk, and the next chunk
starts by re-emitting the ancestor directories of that file. -/
def splitGo (target : Nat) :
    List Entry → List Entry → Nat → List (List Entry) → List (List Entry)
  | [], acc, _, chunks => if acc.isEmpty then chunks else chunks ++ [acc]
  | e :: rest, acc, accSize, chunks =>
    if e.isDir then splitGo target rest (acc ++ [e]) accSize chunks
    else if target < accSize + e.size ∧ acc ≠ [] then
      splitGo target rest (ancestorEntries e.path ++ [e]) e.size (chunks ++ [acc])
    else splitGo target rest (acc ++ [e]) (accSize + e.size) chunks

/-- Modelled from the spec: `find_and_split_files_to_backup` returns the
number of walked entries (files and directories, re-emissions not counted)
and the list of chunks. -/
def findAndSplitFilesToBackup (tree : FsForest) (target : Nat) :
    Nat × List (List Entry) :=
  let walk := walkForest ["pgdata"] tree
  (walk.length, splitGo target walk [] 0 [])

/-- Chunk self-containment: wherever the chunk is split around a file
entry, every proper ancestor directory of the file below the root appears
as a directory entry earlier in the chunk. -/
def SelfCont (chunk : List Entry) : Prop :=
  ∀ pre e suf, chunk = pre ++ e :: suf → e.isDir = false →
    ∀ k, 2 ≤ k → k < e.path.length → dirEntry (e.path.take k) ∈ pre

/-- The open directories of the walk position `p` are all present in the
current chunk. -/
def OpenDirs (p : List String) (acc : List Entry) : Prop :=
  ∀ k, 2 ≤ k → k ≤ p.length → dirEntry (p.take k) ∈ acc

/-- The tree of the split scenario: `split_top` with three 50000-byte files
and a subdirectory `split_sub` with three more. -/
def splitScenarioTree : FsForest :=
  FsForest.cons "split_top" (FsNode.dir (
    FsForest.cons "f1" (FsNode.file 50000) (
    FsForest.cons "f2" (FsNode.file 50000) (
    FsForest.cons "f3" (FsNode.file 50000) (
    FsForest.cons "split_sub" (FsNode.dir (
      FsForest.cons "f1" (FsNode.file 50000) (
      FsForest.cons "f2" (FsNode.file 50000) (
      FsForest.cons "f3" (FsNode.file 50000) FsForest.nil))))
    FsForest.nil))))) FsForest.nil

/-! Helper lemmas and claim theorems. -/

theorem slash_not_mem_foldl (l : List Char) (acc : List Char)
    (h : '/' ∉ acc) :
    '/' ∉ l.foldl (fun acc c => if c = '/' then [] else acc ++ [c]) acc := by
  induction l generalizing acc with
  | nil => simpa using h
  | cons c t ih =>
    simp only [List.foldl_cons]
    by_cases hc : c = '/'
    · simp only [hc, if_pos rfl]
      exact ih [] (by simp)
    · simp only [if_neg hc]
      exact ih (acc ++ [c]) (by simp [h, Ne.symm hc, hc])

theorem slash_not_mem_afterLastSlash (l : List Char) : '/' ∉ afterLastSlash l :=
  slash_not_mem_foldl l [] (by simp)

theorem head_append_not_slash (l m : List Char) (hmem : '/' ∉ l)
    (hm : m.head? ≠ some '/') : (l ++ m).head? ≠ some '/' := by
  cases l with
  | nil => simpa using hm
  | cons c t =>
    simp only [List.cons_append, List.head?_cons]
    intro hEq
    exact hmem (by simp [Option.some.inj hEq])

theorem headIsSlash_pathName_append (n suffix : String)
    (hs : headIsSlash suffix = false) :
    headIsSlash (pathName n ++ suffix) = false := by
  have hmem := slash_not_mem_afterLastSlash (dropTrailingSlashes n.data)
  simp only [headIsSlash, decide_eq_false_iff_not] at hs ⊢
  have : (pathName n ++ suffix).data = afterLastSlash (dropTrailingSlashes n.data) ++ suffix.data := rfl
  rw [this]
  exact head_append_not_slash _ _ hmem hs

theorem append_ne_empty_of_right (s t : String) (h : t.data ≠ []) : s ++ t ≠ "" := by
  intro hEq
  have hd := String.data_eq_of_eq hEq
  rw [String.data_append] at hd
  exact h (List.append_eq_nil.mp hd).2

theorem lastIsSlash_append_lit (s : String) :
    lastIsSlash (s ++ "/preservation_request") = false := by
  simp only [lastIsSlash, String.data_append, List.getLast?_append]
  rfl

theorem osPathJoin3_preservation (pfx rn : String) (h1 : pfx ≠ "")
    (h2 : lastIsSlash pfx = false) (h3 : headIsSlash rn = false) :
    osPathJoin3 pfx "preservation_request" rn =
      pfx ++ "/preservation_request/" ++ rn := by
  have hb : headIsSlash "preservation_request" = false := rfl
  have step1 : osPathJoin pfx "preservation_request" = pfx ++ "/" ++ "preservation_request" := by
    simp [osPathJoin, hb, h1, h2]
  have hne : pfx ++ "/" ++ "preservation_request" ≠ "" := by
    rw [String.append_assoc]
    exact append_ne_empty_of_right _ _ (by simp [String.data_append])
  have hlast : lastIsSlash (pfx ++ "/" ++ "preservation_request") = false := by
    rw [String.append_assoc]
    have : ("/" : String) ++ "preservation_request" = "/preservation_request" := rfl
    rw [this]
    exact lastIsSlash_append_lit pfx
  rw [osPathJoin3, step1, osPathJoin, if_neg (by simp [h3]), if_neg (by simp [hne, hlast])]
  rw [String.append_assoc, String.append_assoc, String.append_assoc]
  have : ("/" : String) ++ ("preservation_request" ++ ("/" ++ rn)) = "/preservation_request/" ++ rn := by
    rw [← String.append_assoc, ← String.append_assoc]
    rfl
  rw [this, ← String.append_assoc]

/-- Claim C1: `request_backup_preservation` stores a zero-length blob at
`prefix/preservation_request/basename(name)_str(preserve_until)` with
metadata exactly preserve-backup and preserve-until, and returns the leaf
request name; in particular the stringified sample deadline renders as
`2022-12-18 10:20:30.123456+00:00`.  The general statement assumes the site
prefix is nonempty and not separator-terminated, which is how `os.path.join`
reproduces the plain concatenation of the claim. -/
theorem request_backup_preservation_spec (st : Store) (pfx n : String)
    (pu : PyDateTime) (h1 : pfx ≠ "") (h2 : lastIsSlash pfx = false) :
    requestBackupPreservation st pfx n pu =
      (storeFileFromMemory st
          (pfx ++ "/preservation_request/" ++ (pathName n ++ "_" ++ pyDatetimeStr pu)) ""
          [("preserve-backup", pathName n), ("preserve-until", pyDatetimeStr pu)],
        pathName n ++ "_" ++ pyDatetimeStr pu) ∧
      pyDatetimeStr sampleDt = "2022-12-18 10:20:30.123456+00:00" := by
  constructor
  · have h3 : headIsSlash (pathName n ++ ("_" ++ pyDatetimeStr pu)) = false :=
      headIsSlash_pathName_append n ("_" ++ pyDatetimeStr pu) rfl
    rw [← String.append_assoc] at h3
    rw [requestBackupPreservation]
    rw [osPathJoin3_preservation pfx _ h1 h2 h3]
  · rfl

/-- Witness for C1: the hypotheses hold and the conclusion evaluates at the
concrete scenario of the spec (store key `site_name/preservation_request/...`,
metadata `preserve-backup = 2022_12_10`). -/
theorem request_backup_preservation_spec_witness :
    (("site_name" : String) ≠ "" ∧ lastIsSlash "site_name" = false) ∧
      requestBackupPreservation [] "site_name" "2022_12_10" sampleDt =
        (storeFileFromMemory []
            ("site_name" ++ "/preservation_request/" ++
              (pathName "2022_12_10" ++ "_" ++ pyDatetimeStr sampleDt)) ""
            [("preserve-backup", pathName "2022_12_10"),
             ("preserve-until", pyDatetimeStr sampleDt)],
          pathName "2022_12_10" ++ "_" ++ pyDatetimeStr sampleDt) :=
  ⟨⟨by decide, by decide⟩,
    (request_backup_preservation_spec [] "site_name" "2022_12_10" sampleDt
      (by decide) (by decide)).1⟩

theorem alookup_aset_ne {β : Type} (l : List (String × β)) (key k : String)
    (v : β) (h : k ≠ key) : alookup (aset l key v) k = alookup l k := by
  have hkk : key ≠ k := fun hEq => h hEq.symm
  induction l with
  | nil => simp [aset, alookup, hkk]
  | cons e t ih =>
    by_cases hk : e.1 = key
    · have hk2 : e.1 ≠ k := by rw [hk]; exact hkk
      simp [aset, alookup, hk, hkk, hk2]
    · by_cases hk2 : e.1 = k
      · simp [aset, alookup, hk, hk2, hkk, h]
      · simp [aset, alookup, hk, hk2, ih]

theorem alookup_deleteKey_ne (st : Store) (key k : String) (h : k ≠ key) :
    alookup (deleteKey st key) k = alookup st k := by
  induction st with
  | nil => rfl
  | cons e t ih =>
    rw [deleteKey, List.filter_cons]
    by_cases hk : e.1 = key
    · have hk2 : e.1 ≠ k := by rw [hk]; exact fun hEq => h hEq.symm
      rw [if_neg (by simp [hk])]
      rw [show alookup (e :: t) k = alookup t k by rw [alookup, if_neg hk2]]
      exact ih
    · rw [if_pos (by simp [hk])]
      by_cases hk2 : e.1 = k
      · rw [alookup, alookup, if_pos hk2, if_pos hk2]
      · rw [alookup, alookup, if_neg hk2, if_neg hk2]
        exact ih

theorem fst_ne_of_mem_deleteKey (st : Store) (key : String) (e : String × Blob)
    (h : e ∈ deleteKey st key) : e.1 ≠ key := by
  have := List.of_mem_filter h
  simpa using this

/-- Claim C2: cancelling with the request name returned by
`request_backup_preservation` deletes exactly the blob the request created:
afterwards no entry in the store (in particular none under the
`preservation_request` prefix) has the request key, and every other key maps
to exactly what it mapped to before the request. -/
theorem cancel_backup_preservation_roundtrip (st : Store) (pfx n : String)
    (pu : PyDateTime) :
    (∀ e ∈ cancelBackupPreservation (requestBackupPreservation st pfx n pu).1 pfx
        (requestBackupPreservation st pfx n pu).2,
      e.1 ≠ osPathJoin3 pfx "preservation_request"
        (requestBackupPreservation st pfx n pu).2) ∧
    (∀ k, k ≠ osPathJoin3 pfx "preservation_request"
        (requestBackupPreservation st pfx n pu).2 →
      alookup (cancelBackupPreservation (requestBackupPreservation st pfx n pu).1 pfx
          (requestBackupPreservation st pfx n pu).2) k = alookup st k) := by
  constructor
  · intro e he
    exact fst_ne_of_mem_deleteKey _ _ e he
  · intro k hk
    rw [cancelBackupPreservation, alookup_deleteKey_ne _ _ _ hk]
    rw [requestBackupPreservation, storeFileFromMemory]
    exact alookup_aset_ne st _ k _ hk

/-- Witness for C2 at the concrete scenario of the spec: after the
request/cancel round trip on an empty store, the preservation-request prefix
holds no entry for the request, and an unrelated key is unchanged. -/
theorem cancel_backup_preservation_roundtrip_witness :
    (∀ e ∈ cancelBackupPreservation
        (requestBackupPreservation [] "site_name" "2022_12_10" sampleDt).1 "site_name"
        (requestBackupPreservation [] "site_name" "2022_12_10" sampleDt).2,
      e.1 ≠ osPathJoin3 "site_name" "preservation_request"
        (requestBackupPreservation [] "site_name" "2022_12_10" sampleDt).2) ∧
      alookup (cancelBackupPreservation
          (requestBackupPreservation [] "site_name" "2022_12_10" sampleDt).1 "site_name"
          (requestBackupPreservation [] "site_name" "2022_12_10" sampleDt).2) "other" =
        alookup ([] : Store) "other" :=
  ⟨(cancel_backup_preservation_roundtrip [] "site_name" "2022_12_10" sampleDt).1,
   (cancel_backup_preservation_roundtrip [] "site_name" "2022_12_10" sampleDt).2
     "other" (by decide)⟩

/-- Claim C3: the `try_` preservation variants never propagate storage
errors.  If the underlying operation raises, `try_request_backup_preservation`
returns `none` and `try_cancel_backup_preservation` returns normally leaving
the store as it was; if the underlying operation succeeds, the try variants
return its result, and the request name equals the one computed by
`request_backup_preservation`. -/
theorem try_preservation_swallows_errors (ops : StorageOps) (pfx n rn : String)
    (pu : PyDateTime) (st : Store) :
    (∀ e, requestBackupPreservationE ops pfx n pu = .error e →
      tryRequestBackupPreservation ops pfx n pu = none) ∧
    (∀ st' r, requestBackupPreservationE ops pfx n pu = .ok (st', r) →
      tryRequestBackupPreservation ops pfx n pu = some r ∧
        r = (requestBackupPreservation st pfx n pu).2) ∧
    (∀ e, cancelBackupPreservationE ops pfx rn = .error e →
      tryCancelBackupPreservation ops pfx rn st = st) ∧
    (∀ st', cancelBackupPreservationE ops pfx rn = .ok st' →
      tryCancelBackupPreservation ops pfx rn st = st') := by
  refine ⟨?_, ?_, ?_, ?_⟩
  · intro e he
    rw [tryRequestBackupPreservation, he]
  · intro st' r hok
    constructor
    · rw [tryRequestBackupPreservation, hok]
    · rw [requestBackupPreservationE] at hok
      rcases hput : ops.putOutcome (osPathJoin3 pfx "preservation_request"
          (pathName n ++ "_" ++ pyDatetimeStr pu)) ""
          [("preserve-backup", pathName n), ("preserve-until", pyDatetimeStr pu)] with e | st2
      · rw [hput] at hok
        exact absurd hok (by simp)
      · rw [hput] at hok
        simp only [Except.ok.injEq, Prod.mk.injEq] at hok
        exact hok.2.symm
  · intro e he
    rw [tryCancelBackupPreservation, he]
  · intro st' hok
    rw [tryCancelBackupPreservation, hok]

/-- Witness for C3: with an always-raising storage the try variants return
`none` and the unchanged store respectively. -/
theorem try_preservation_swallows_errors_witness :
    tryRequestBackupPreservation failingOps "site_name" "2022_12_10" sampleDt = none ∧
      tryCancelBackupPreservation failingOps "site_name" "req" [] = [] :=
  ⟨(try_preservation_swallows_errors failingOps "site_name" "2022_12_10" "req"
      sampleDt []).1 "boom" rfl,
   (try_preservation_swallows_errors failingOps "site_name" "2022_12_10" "req"
      sampleDt []).2.2.1 "boom" rfl⟩

theorem foldl_append_map {α β : Type} (f : α → β) (l : List α) (r0 : List β) :
    l.foldl (fun r b => r ++ [f b]) r0 = r0 ++ l.map f := by
  induction l generalizing r0 with
  | nil => simp
  | cons a t ih => simp [ih]

/-- Claim C8: `HTTPRestore.list_basebackups` issues one GET per configured
site at `http://host:port/site/basebackup` and returns, concatenated in site
order, one entry per element of the response's `basebackups` array, with the
entry name taken from the element's `name` field and the whole element stored
as the entry's data. -/
theorem http_list_basebackups_spec (host port : String) (sites : List String)
    (fetch : String → List JsonBackupObj) :
    httpListBasebackups host port sites fetch =
      sites.flatMap (fun site =>
        (fetch (httpUrl host port site "basebackup")).map
          (fun b => HttpBaseBackupInfo.mk b.nameField b site)) := by
  have key : ∀ (ss : List String) (r0 : List HttpBaseBackupInfo),
      ss.foldl
          (fun result site =>
            (fetch (httpUrl host port site "basebackup")).foldl
              (fun result b => result ++ [HttpBaseBackupInfo.mk b.nameField b site])
              result)
          r0
        = r0 ++ ss.flatMap (fun site =>
            (fetch (httpUrl host port site "basebackup")).map
              (fun b => HttpBaseBackupInfo.mk b.nameField b site)) := by
    intro ss
    induction ss with
    | nil => intro r0; simp
    | cons s t ih =>
      intro r0
      rw [List.foldl_cons, foldl_append_map, ih, List.flatMap_cons,
        List.append_assoc]
  simpa [httpListBasebackups] using key sites []

theorem forall₂_rowsUntilError (parseTs : String → PyDateTime) (ls : List BBInfo)
    (hok : ∀ b ∈ ls, (renderRow parseTs b).isSome) :
    List.Forall₂ (fun b r => renderRow parseTs b = some r) ls
      (rowsUntilError parseTs ls) := by
  induction ls with
  | nil => exact List.Forall₂.nil
  | cons b t ih =>
    have hb := hok b (by simp)
    rcases hr : renderRow parseTs b with _ | r
    · rw [hr] at hb; simp at hb
    · rw [rowsUntilError, hr]
      exact List.Forall₂.cons hr (ih fun b' hb' => hok b' (by simp [hb']))

theorem forall₂_mem_right {α β : Type} {R : α → β → Prop} :
    ∀ {l1 : List α} {l2 : List β}, List.Forall₂ R l1 l2 → ∀ b ∈ l2, ∃ a ∈ l1, R a b := by
  intro l1 l2 h
  induction h with
  | nil => intro b hb; simp at hb
  | cons hr _ ih =>
    intro b hb
    rcases List.mem_cons.mp hb with hb | hb
    · exact ⟨_, by simp, hb ▸ hr⟩
    · rcases ih b hb with ⟨a, ha, hra⟩
      exact ⟨a, by simp [ha], hra⟩

theorem renderRowFrom_name (parseTs : String → PyDateTime) (name : String)
    (size : Int) (lmv : PyVal) (meta : PyMeta) (r : Row)
    (h : renderRowFrom parseTs name size lmv meta = some r) : r.name = name := by
  simp only [renderRowFrom] at h
  repeat' split at h
  all_goals simp_all
  all_goals rw [← h]

theorem renderRow_name (parseTs : String → PyDateTime) (b : BBInfo) (r : Row)
    (h : renderRow parseTs b = some r) : r.name = b.name := by
  simp only [renderRow] at h
  split at h
  · exact absurd h (by simp)
  · exact renderRowFrom_name _ _ _ _ _ _ h

theorem charListLe_cons_iff (a d : Char) (as ds : List Char) :
    charListLe (a :: as) (d :: ds) = true ↔
      a.toNat < d.toNat ∨ (a.toNat = d.toNat ∧ charListLe as ds = true) := by
  rw [charListLe]
  by_cases h1 : a.toNat < d.toNat
  · simp [h1]
  · by_cases h2 : d.toNat < a.toNat
    · simp only [if_neg h1, if_pos h2]
      constructor
      · intro h
        exact absurd h (by simp)
      · intro h
        rcases h with h | ⟨hEq, _⟩
        · omega
        · omega
    · have hEq : a.toNat = d.toNat := by omega
      simp [h1, h2, hEq]

theorem charListLe_total : ∀ (l1 l2 : List Char),
    charListLe l1 l2 = true ∨ charListLe l2 l1 = true := by
  intro l1
  induction l1 with
  | nil => intro l2; left; rfl
  | cons a as ih =>
    intro l2
    cases l2 with
    | nil => right; rfl
    | cons d ds =>
      rw [charListLe_cons_iff, charListLe_cons_iff]
      rcases Nat.lt_trichotomy a.toNat d.toNat with h | h | h
      · left; left; exact h
      · rcases ih ds with h2 | h2
        · left; right; exact ⟨h, h2⟩
        · right; right; exact ⟨h.symm, h2⟩
      · right; left; exact h

theorem charListLe_trans : ∀ (l1 l2 l3 : List Char),
    charListLe l1 l2 = true → charListLe l2 l3 = true →
    charListLe l1 l3 = true := by
  intro l1
  induction l1 with
  | nil => intro l2 l3 _ _; rfl
  | cons a as ih =>
    intro l2 l3 h12 h23
    cases l2 with
    | nil => simp [charListLe] at h12
    | cons b bs =>
      cases l3 with
      | nil => simp [charListLe] at h23
      | cons d ds =>
        rw [charListLe_cons_iff] at h12 h23 ⊢
        rcases h12 with h12 | ⟨h12e, h12t⟩ <;> rcases h23 with h23 | ⟨h23e, h23t⟩
        · left; omega
        · left; omega
        · left; omega
        · right; exact ⟨by omega, ih bs ds h12t h23t⟩

theorem charListLe_antisymm : ∀ (l1 l2 : List Char),
    charListLe l1 l2 = true → charListLe l2 l1 = true → l1 = l2 := by
  intro l1
  induction l1 with
  | nil =>
    intro l2 _ h21
    cases l2 with
    | nil => rfl
    | cons d ds => simp [charListLe] at h21
  | cons a as ih =>
    intro l2 h12 h21
    cases l2 with
    | nil => simp [charListLe] at h12
    | cons b bs =>
      rw [charListLe_cons_iff] at h12 h21
      rcases h12 with h12 | ⟨h12e, h12t⟩ <;> rcases h21 with h21 | ⟨h21e, h21t⟩
      · omega
      · omega
      · omega
      · have hEq : a = b := Char.eq_of_val_eq (UInt32.toNat.inj h12e)
        rw [hEq, ih bs h12t h21t]

theorem nameLe_antisymm (s1 s2 : String) (h12 : nameLe s1 s2 = true)
    (h21 : nameLe s2 s1 = true) : s1 = s2 :=
  String.ext (charListLe_antisymm s1.data s2.data h12 h21)

theorem sorted_rows_of_forall₂ :
    ∀ {la : List BBInfo} {lr : List Row},
      List.Forall₂ (fun b r => r.name = b.name) la lr →
      la.Sorted (fun a b => nameLe a.name b.name = true) →
      lr.Sorted (fun r1 r2 => nameLe r1.name r2.name = true) := by
  intro la lr h
  induction h with
  | nil => intro _; exact List.sorted_nil
  | cons hr htail ih =>
    intro hs
    rcases List.sorted_cons.mp hs with ⟨hall, hs'⟩
    refine List.sorted_cons.mpr ⟨?_, ih hs'⟩
    intro r' hr'
    rcases forall₂_mem_right htail r' hr' with ⟨b', hb', hname⟩
    rw [hr, hname]
    exact hall b' hb'

theorem eq_of_perm_of_map_eq_of_nodup {α β : Type} [DecidableEq α] (f : α → β) :
    ∀ (l1 l2 : List α), l1.Perm l2 → l1.map f = l2.map f → (l1.map f).Nodup →
      l1 = l2 := by
  intro l1
  induction l1 with
  | nil => intro l2 hp _ _; simpa using hp.symm.eq_nil
  | cons a t ih =>
    intro l2 hp hm hnd
    cases l2 with
    | nil => exact absurd hp.eq_nil (by simp)
    | cons b t2 =>
      have hnd2 : f a ∉ t.map f ∧ (t.map f).Nodup := by
        rw [List.map_cons] at hnd
        exact List.nodup_cons.mp hnd
      simp only [List.map_cons, List.cons.injEq] at hm
      have hab : a = b := by
        have hamem : a ∈ b :: t2 := hp.mem_iff.mp (by simp)
        rcases List.mem_cons.mp hamem with h | h
        · exact h
        · exfalso
          have h1 : f a ∈ t2.map f := List.mem_map_of_mem f h
          rw [← hm.2] at h1
          exact hnd2.1 h1
      subst hab
      have hp' : t.Perm t2 := (List.perm_cons a).mp hp
      have hrec := ih t2 hp' hm.2 hnd2.2
      rw [hrec]

theorem sortByName_eq_of_perm (l l' : List BBInfo) (hperm : l.Perm l')
    (hnd : (l.map BBInfo.name).Nodup) : sortByName l = sortByName l' := by
  haveI htot : IsTotal BBInfo (fun a b => nameLe a.name b.name = true) :=
    IsTotal.mk fun a b => charListLe_total a.name.data b.name.data
  haveI htr : IsTrans BBInfo (fun a b => nameLe a.name b.name = true) :=
    IsTrans.mk fun a b d h1 h2 =>
      charListLe_trans a.name.data b.name.data d.name.data h1 h2
  haveI hanti : IsAntisymm String nameLtStrict :=
    IsAntisymm.mk fun a b h1 h2 => absurd (nameLe_antisymm a b h1.1 h2.1) h1.2
  have p1 : (sortByName l).Perm (sortByName l') :=
    ((List.perm_insertionSort _ l).trans hperm).trans
      (List.perm_insertionSort _ l').symm
  have hs1 : (sortByName l).Sorted (fun a b => nameLe a.name b.name = true) :=
    List.sorted_insertionSort _ l
  have hs2 : (sortByName l').Sorted (fun a b => nameLe a.name b.name = true) :=
    List.sorted_insertionSort _ l'
  have hnd1 : ((sortByName l).map BBInfo.name).Nodup :=
    (((List.perm_insertionSort _ l).map BBInfo.name).nodup_iff).mpr hnd
  have hnd2 : ((sortByName l').map BBInfo.name).Nodup :=
    ((p1.map BBInfo.name).nodup_iff).mp hnd1
  have hms1 : ((sortByName l).map BBInfo.name).Sorted
      (fun a b => nameLe a b = true) := by
    rw [List.Sorted, List.pairwise_map]
    exact hs1
  have hms2 : ((sortByName l').map BBInfo.name).Sorted
      (fun a b => nameLe a b = true) := by
    rw [List.Sorted, List.pairwise_map]
    exact hs2
  have hlt1 : ((sortByName l).map BBInfo.name).Sorted nameLtStrict :=
    (hms1.and hnd1).imp fun h => And.intro h.1 h.2
  have hlt2 : ((sortByName l').map BBInfo.name).Sorted nameLtStrict :=
    (hms2.and hnd2).imp fun h => And.intro h.1 h.2
  have hmapeq : (sortByName l).map BBInfo.name = (sortByName l').map BBInfo.name :=
    List.eq_of_perm_of_sorted (p1.map BBInfo.name) hlt1 hlt2
  exact eq_of_perm_of_map_eq_of_nodup BBInfo.name _ _ p1 hmapeq hnd1

/-- Claim C9 (amended): `print_basebackup_list` prints exactly one row per
backup entry — the rows are precisely the renderings of the entries sorted
by name — in non-decreasing lexicographic order of backup name, provided
every entry renders successfully; and the printed sequence is identical for
every permutation of the input provided the backup names are pairwise
distinct.  (As stated the claim is false: with duplicate names the stable
sort preserves the input order of equal-named entries, see the
counterexample.) -/
theorem print_basebackup_rows_spec (parseTs : String → PyDateTime)
    (l : List BBInfo) :
    ((∀ b ∈ l, (renderRow parseTs b).isSome) →
      List.Forall₂ (fun b r => renderRow parseTs b = some r) (sortByName l)
          (printBasebackupRows parseTs l) ∧
        (printBasebackupRows parseTs l).length = l.length ∧
        (printBasebackupRows parseTs l).Sorted
          (fun r1 r2 : Row => nameLe r1.name r2.name = true)) ∧
      (∀ l', l.Perm l' → (l.map BBInfo.name).Nodup →
        printBasebackupRows parseTs l = printBasebackupRows parseTs l') := by
  haveI htot : IsTotal BBInfo (fun a b => nameLe a.name b.name = true) :=
    IsTotal.mk fun a b => charListLe_total a.name.data b.name.data
  haveI htr : IsTrans BBInfo (fun a b => nameLe a.name b.name = true) :=
    IsTrans.mk fun a b d h1 h2 =>
      charListLe_trans a.name.data b.name.data d.name.data h1 h2
  constructor
  · intro hok
    have hok' : ∀ b ∈ sortByName l, (renderRow parseTs b).isSome := by
      intro b hb
      exact hok b ((List.perm_insertionSort _ l).mem_iff.mp hb)
    have hf := forall₂_rowsUntilError parseTs (sortByName l) hok'
    refine ⟨hf, ?_, ?_⟩
    · have h1 := hf.length_eq
      rw [printBasebackupRows, ← h1, sortByName, List.length_insertionSort]
    · refine sorted_rows_of_forall₂ (hf.imp ?_) (List.sorted_insertionSort _ l)
      intro b r h
      exact renderRow_name parseTs b r h
  · intro l' hperm hnd
    rw [printBasebackupRows, printBasebackupRows,
      sortByName_eq_of_perm l l' hperm hnd]

/-- Counterexample to claim C9 as stated: two entries share the name `a` but
have different sizes; swapping them permutes the input yet changes the
printed row sequence, because Python's stable sort keeps equal-named entries
in input order. -/
theorem print_basebackup_rows_perm_counterexample :
    printBasebackupRows (fun _ => naiveDt) [dupEntryA, dupEntryB] ≠
      printBasebackupRows (fun _ => naiveDt) [dupEntryB, dupEntryA] := by
  decide

/-- Witness for the amended C9 at a two-entry list with distinct names. -/
theorem print_basebackup_rows_spec_witness :
    (printBasebackupRows (fun _ => naiveDt)
        [BBInfo.mk "b" (BBData.mk [("start-time", PyVal.vDt naiveDt)] 0) "s",
         BBInfo.mk "a" (BBData.mk [("start-time", PyVal.vDt naiveDt)] 0) "s"]).length = 2 ∧
      printBasebackupRows (fun _ => naiveDt)
          [BBInfo.mk "b" (BBData.mk [("start-time", PyVal.vDt naiveDt)] 0) "s",
           BBInfo.mk "a" (BBData.mk [("start-time", PyVal.vDt naiveDt)] 0) "s"] =
        printBasebackupRows (fun _ => naiveDt)
          [BBInfo.mk "a" (BBData.mk [("start-time", PyVal.vDt naiveDt)] 0) "s",
           BBInfo.mk "b" (BBData.mk [("start-time", PyVal.vDt naiveDt)] 0) "s"] :=
  ⟨((print_basebackup_rows_spec (fun _ => naiveDt)
      [BBInfo.mk "b" (BBData.mk [("start-time", PyVal.vDt naiveDt)] 0) "s",
       BBInfo.mk "a" (BBData.mk [("start-time", PyVal.vDt naiveDt)] 0) "s"]).1
      (by decide)).2.1,
   (print_basebackup_rows_spec (fun _ => naiveDt)
      [BBInfo.mk "b" (BBData.mk [("start-time", PyVal.vDt naiveDt)] 0) "s",
       BBInfo.mk "a" (BBData.mk [("start-time", PyVal.vDt naiveDt)] 0) "s"]).2
      [BBInfo.mk "a" (BBData.mk [("start-time", PyVal.vDt naiveDt)] 0) "s",
       BBInfo.mk "b" (BBData.mk [("start-time", PyVal.vDt naiveDt)] 0) "s"]
      (List.Perm.swap _ _ _) (by decide)⟩

theorem renderRowH_preserves (parseTs : String → PyDateTime) (heap : MetaHeap)
    (b : BBInfoH) :
    heap.length ≤ (renderRowH parseTs heap b).2.length ∧
      ∀ j, j < heap.length → ((renderRowH parseTs heap b).2)[j]? = heap[j]? := by
  rw [renderRowH]
  rcases hm : heap[b.metaRef]? with _ | m0
  · exact ⟨le_refl _, fun j _ => rfl⟩
  · rcases hp : apop m0 "start-time" with _ | vm
    · simp only [hp]
      constructor
      · simp
      · intro j hj
        rw [List.getElem?_append, if_pos hj]
    · rcases vm with ⟨lmv, m2⟩
      simp only [hp]
      constructor
      · simp
      · intro j hj
        rw [List.getElem?_set_ne (by omega), List.getElem?_append, if_pos hj]

theorem printGoH_preserves (parseTs : String → PyDateTime) :
    ∀ (rest : List BBInfoH) (heap : MetaHeap) (j : Nat), j < heap.length →
      ((printGoH parseTs heap rest).2)[j]? = heap[j]? := by
  intro rest
  induction rest with
  | nil => intro heap j hj; rfl
  | cons b t ih =>
    intro heap j hj
    have hpres := renderRowH_preserves parseTs heap b
    rw [printGoH]
    rcases hr : renderRowH parseTs heap b with ⟨ro, heap1⟩
    rw [hr] at hpres
    rcases ro with _ | r
    · exact hpres.2 j hj
    · simp only
      rw [ih heap1 j (lt_of_lt_of_le hj hpres.1)]
      exact hpres.2 j hj

/-- Claim C10: `print_basebackup_list` does not mutate its input.  In the
explicit-aliasing embedding where `dict.copy` allocates a fresh heap cell and
`dict.pop` mutates in place, printing leaves every pre-existing metadata
dictionary — in particular the one referenced by each entry's data — exactly
as it was; names, sizes and sites are immutable values of the entries. -/
theorem print_basebackup_list_no_mutation (parseTs : String → PyDateTime)
    (heap : MetaHeap) (l : List BBInfoH) :
    (∀ j, j < heap.length →
      ((printBasebackupListH parseTs heap l).2)[j]? = heap[j]?) ∧
      ∀ b ∈ l, b.metaRef < heap.length →
        ((printBasebackupListH parseTs heap l).2)[b.metaRef]? = heap[b.metaRef]? := by
  constructor
  · intro j hj
    exact printGoH_preserves parseTs _ heap j hj
  · intro b _ hb
    exact printGoH_preserves parseTs _ heap b.metaRef hb

/-- Witness for C10: a one-entry heap and list; after printing, the entry's
metadata dictionary is unchanged. -/
theorem print_basebackup_list_no_mutation_witness :
    ((printBasebackupListH (fun _ => naiveDt) [[("start-time", PyVal.vDt naiveDt)]]
        [BBInfoH.mk "a" 0 0 "s"]).2)[(0 : Nat)]? =
      (([[("start-time", PyVal.vDt naiveDt)]] : MetaHeap))[(0 : Nat)]? :=
  (print_basebackup_list_no_mutation (fun _ => naiveDt)
      [[("start-time", PyVal.vDt naiveDt)]] [BBInfoH.mk "a" 0 0 "s"]).2
    (BBInfoH.mk "a" 0 0 "s") (by decide) (by decide)

/-- Claim C4 (spec-modelled): with `basebackup_hour = 13`,
`basebackup_minute = 10` and `basebackup_interval_hours = 1.5` (5400 s), at
`now = 15:20:30` UTC of any day `d`: with no existing backup the scheduler
decides to back up with reason `scheduled` and normalized time 14:40:00 UTC;
with an existing backup carrying that normalized time (started at 14:20:30)
it decides not to back up at the same `now`; and one hour later it decides
to back up with normalized time 16:10:00 UTC. -/
theorem get_new_backup_details_windows (d : Nat) :
    (getNewBackupDetails ((d : Int) * 86400 + 55230) (some (13, 10)) 5400 none false =
        some (BackupDecision.mk .scheduled ((d : Int) * 86400 + 55230)
          (some ((d : Int) * 86400 + 52800))) ∧
      isoTimeOfDay ((d : Int) * 86400 + 52800) = "T14:40:00+00:00") ∧
    getNewBackupDetails ((d : Int) * 86400 + 55230) (some (13, 10)) 5400
        (some (LastBackup.mk ((d : Int) * 86400 + 51630)
          (some ((d : Int) * 86400 + 52800)))) false = none ∧
    (getNewBackupDetails ((d : Int) * 86400 + 58830) (some (13, 10)) 5400
        (some (LastBackup.mk ((d : Int) * 86400 + 51630)
          (some ((d : Int) * 86400 + 52800)))) false =
        some (BackupDecision.mk .scheduled ((d : Int) * 86400 + 58830)
          (some ((d : Int) * 86400 + 58200))) ∧
      isoTimeOfDay ((d : Int) * 86400 + 58200) = "T16:10:00+00:00") := by
  have hn1 : normalizedBackupTime ((d : Int) * 86400 + 55230) (some (13, 10)) 5400 =
      some ((d : Int) * 86400 + 52800) := by
    simp only [normalizedBackupTime]
    norm_num
    omega
  have hn2 : normalizedBackupTime ((d : Int) * 86400 + 58830) (some (13, 10)) 5400 =
      some ((d : Int) * 86400 + 58200) := by
    simp only [normalizedBackupTime]
    norm_num
    omega
  refine ⟨⟨?_, ?_⟩, ?_, ?_, ?_⟩
  · simp [getNewBackupDetails, hn1]
  · have h : ((d : Int) * 86400 + 52800) % 86400 = 52800 := by omega
    simp only [isoTimeOfDay, h]
    rfl
  · simp [getNewBackupDetails, hn1]
  · simp only [getNewBackupDetails, hn2]
    norm_num
  · have h : ((d : Int) * 86400 + 58200) % 86400 = 58200 := by omega
    simp only [isoTimeOfDay, h]
    rfl

theorem formatFetched_eq_contains (b : RemoteBackup) :
    formatFetched b.format =
      ([BBFormat.v2, .delta_v1, .delta_v2, .local_tar_delta_stats].contains b.format) := by
  rcases b with ⟨name, fmt⟩
  cases fmt <;> rfl

/-- Claim C6 (amended, spec-modelled): `fetch_all_data_files_hashes` fetches
the manifest blob of each remote basebackup whose format is v2, delta-v1,
delta-v2 or local-tar-delta-stats — skipping v1 manifests — and returns the
union of those manifests' `delta_stats.hashes` maps; on the six-backup
scenario it returns exactly the three hashes of the two v2 manifests that
carry delta stats.  (As stated the claim is false: v2 manifests do
contribute, see the counterexample.) -/
theorem fetch_all_data_files_hashes_spec (pfx : String)
    (backups : List RemoteBackup) (download : String → BackupMeta) :
    fetchAllDataFilesHashes pfx backups download =
      unionHashesOf [.v2, .delta_v1, .delta_v2, .local_tar_delta_stats] pfx
        backups download ∧
      fetchAllDataFilesHashes "a/b/c" sixBackups sixDownload =
        [("8ee55c458dde7fd7ea43b946dfb3c9713a360280ee2927e600b9d6d4630ef3fd", 1636),
         ("7e0c70d50c0ccd9ca4cb8c6837fbfffb4ef7e885aa1c6370fcfc307541a03e27", 8192),
         ("7e0c70d50c0ccd9ca4cb8c6837fbfffb4ef7e885aa1c6370fcfc307541a03e28", 800)] := by
  constructor
  · rw [fetchAllDataFilesHashes, unionHashesOf]
    have key : ∀ (bs : List RemoteBackup) (acc : List (String × Int)),
        bs.foldl
            (fun hashes b =>
              if formatFetched b.format then
                updateAll hashes
                  ((download (osPathJoin3 pfx "basebackup" b.name)).deltaHashes.getD [])
              else hashes)
            acc =
          (bs.filter
              (fun b =>
                [BBFormat.v2, .delta_v1, .delta_v2, .local_tar_delta_stats].contains
                  b.format)).foldl
            (fun hashes b =>
              updateAll hashes
                ((download (osPathJoin3 pfx "basebackup" b.name)).deltaHashes.getD []))
            acc := by
      intro bs
      induction bs with
      | nil => intro acc; rfl
      | cons b t ih =>
        intro acc
        rw [List.foldl_cons, List.filter_cons]
        cases hf : formatFetched b.format with
        | false =>
          have hc := (formatFetched_eq_contains b).symm.trans hf
          rw [if_neg (by simp [hf]), if_neg (by simpa using hc)]
          exact ih acc
        | true =>
          have hc := (formatFetched_eq_contains b).symm.trans hf
          rw [if_pos (by simp [hf]), if_pos (by simpa using hc), List.foldl_cons]
          exact ih _
    exact key backups []
  · decide

/-- Counterexample to claim C6 as stated: on the six-backup scenario the
code's hash union differs from the union over only the delta formats,
because the v2 manifests contribute their hashes. -/
theorem fetch_all_data_files_hashes_counterexample :
    fetchAllDataFilesHashes "a/b/c" sixBackups sixDownload ≠
      unionHashesOf [.delta_v1, .delta_v2, .local_tar_delta_stats] "a/b/c"
        sixBackups sixDownload := by
  decide

/-- Claim C7 (spec-modelled): parsing a backup label out of a tar archive
yields the same (segment, time) pair as parsing the label text directly, and
the sample label parses to the expected segment and ISO UTC start time. -/
theorem parse_backup_label_spec :
    (∀ (tar : List (String × String)) (s : String),
        alookup tar "backup_label" = some s →
        parseBackupLabelInTar tar = parseBackupLabel s) ∧
      parseBackupLabel sampleLabel =
        some ("000000010000000000000004", "2015-02-12T14:07:19+00:00") := by
  constructor
  · intro tar s h
    rw [parseBackupLabelInTar, h]
  · decide

/-- Witness for C7: the tar round trip at the sample label. -/
theorem parse_backup_label_spec_witness :
    parseBackupLabelInTar [("backup_label", sampleLabel)] =
      parseBackupLabel sampleLabel :=
  parse_backup_label_spec.1 [("backup_label", sampleLabel)] sampleLabel rfl

theorem split_snoc {α : Type} (acc : List α) (x : α) (pre suf : List α) (f : α)
    (h : acc ++ [x] = pre ++ f :: suf) :
    (pre = acc ∧ f = x ∧ suf = []) ∨
      ∃ suf2, acc = pre ++ f :: suf2 ∧ suf = suf2 ++ [x] := by
  rcases List.eq_nil_or_concat suf with rfl | ⟨suf2, y, rfl⟩
  · left
    have h2 : acc ++ [x] = pre ++ [f] := by simpa using h
    have h3 := List.append_inj' h2 rfl
    have hxf : x = f := by simpa using h3.2
    exact ⟨h3.1.symm, hxf.symm, rfl⟩
  · right
    have h2 : acc ++ [x] = (pre ++ f :: suf2) ++ [y] := by
      simpa [List.concat_eq_append, List.append_assoc] using h
    have h3 := List.append_inj' h2 rfl
    have hxy : x = y := by simpa using h3.2
    exact ⟨suf2, h3.1, by simp [List.concat_eq_append, hxy]⟩

theorem selfCont_nil : SelfCont [] := by
  intro pre e suf h
  exact absurd h.symm (by simp)

theorem selfCont_snoc_dir (acc : List Entry) (e : Entry) (h : SelfCont acc)
    (hd : e.isDir = true) : SelfCont (acc ++ [e]) := by
  intro pre f suf hs hf k hk1 hk2
  rcases split_snoc acc e pre suf f hs with ⟨_, hfe, _⟩ | ⟨suf2, hacc, _⟩
  · rw [hfe, hd] at hf
    exact absurd hf (by simp)
  · exact h pre f suf2 hacc hf k hk1 hk2

theorem selfCont_snoc_file (p : List String) (nm : String) (acc : List Entry)
    (sz : Nat) (h : SelfCont acc) (ho : OpenDirs p acc) :
    SelfCont (acc ++ [Entry.mk (p ++ [nm]) false sz]) := by
  intro pre f suf hs hf k hk1 hk2
  rcases split_snoc acc _ pre suf f hs with ⟨hpre, hfe, _⟩ | ⟨suf2, hacc, _⟩
  · subst hfe
    have hk2' : k < (p ++ [nm]).length := hk2
    have hk3 : k ≤ p.length := by
      simp only [List.length_append, List.length_cons, List.length_nil] at hk2'
      omega
    rw [hpre]
    show dirEntry ((p ++ [nm]).take k) ∈ acc
    rw [List.take_append_of_le_length hk3]
    exact ho k hk1 hk3
  · exact h pre f suf2 hacc hf k hk1 hk2

theorem mem_ancestorEntries (pa : List String) (k : Nat) (hk1 : 2 ≤ k)
    (hk2 : k < pa.length) : dirEntry (pa.take k) ∈ ancestorEntries pa := by
  rw [ancestorEntries]
  apply List.mem_map_of_mem
  rw [List.mem_range']
  exact ⟨k - 2, by omega, by omega⟩

theorem ancestorEntries_isDir (pa : List String) (f : Entry)
    (hf : f ∈ ancestorEntries pa) : f.isDir = true := by
  rcases List.mem_map.mp hf with ⟨k, _, hk⟩
  rw [← hk]
  rfl

theorem selfCont_restart (pa : List String) (sz : Nat) :
    SelfCont (ancestorEntries pa ++ [Entry.mk pa false sz]) := by
  intro pre f suf hs hf k hk1 hk2
  rcases split_snoc (ancestorEntries pa) _ pre suf f hs
      with ⟨hpre, hfe, _⟩ | ⟨suf2, hacc, _⟩
  · subst hpre
    subst hfe
    have hk2' : k < pa.length := hk2
    show dirEntry (pa.take k) ∈ ancestorEntries pa
    exact mem_ancestorEntries pa k hk1 hk2'
  · have hmem : f ∈ ancestorEntries pa := by
      rw [hacc]
      simp
    rw [ancestorEntries_isDir pa f hmem] at hf
    exact absurd hf (by simp)

theorem openDirs_append (p : List String) (acc l : List Entry)
    (h : OpenDirs p acc) : OpenDirs p (acc ++ l) :=
  fun k hk1 hk2 => List.mem_append.mpr (Or.inl (h k hk1 hk2))

theorem openDirs_restart (p : List String) (nm : String) (sz : Nat) :
    OpenDirs p (ancestorEntries (p ++ [nm]) ++ [Entry.mk (p ++ [nm]) false sz]) := by
  intro k hk1 hk2
  apply List.mem_append.mpr
  left
  rw [← @List.take_append_of_le_length _ p [nm] k hk2]
  exact mem_ancestorEntries (p ++ [nm]) k hk1 (by simp; omega)

theorem openDirs_enter (p : List String) (acc : List Entry) (nm : String)
    (h : OpenDirs p acc) :
    OpenDirs (p ++ [nm]) (acc ++ [dirEntry (p ++ [nm])]) := by
  intro k hk1 hk2
  by_cases hk : k ≤ p.length
  · rw [List.take_append_of_le_length hk]
    exact List.mem_append.mpr (Or.inl (h k hk1 hk))
  · have hkeq : (p ++ [nm]).length ≤ k := by simp at hk2 ⊢; omega
    rw [List.take_of_length_le hkeq]
    exact List.mem_append.mpr (Or.inr (by simp [dirEntry]))

theorem openDirs_weaken (p : List String) (nm : String) (acc : List Entry)
    (h : OpenDirs (p ++ [nm]) acc) : OpenDirs p acc := by
  intro k hk1 hk2
  rw [← @List.take_append_of_le_length _ p [nm] k hk2]
  exact h k hk1 (by simp; omega)

theorem splitGo_nil_ok (target : Nat) (acc : List Entry) (accSize : Nat)
    (chunks : List (List Entry)) (hch : ∀ ch ∈ chunks, SelfCont ch)
    (hacc : SelfCont acc) :
    ∀ ch ∈ splitGo target [] acc accSize chunks, SelfCont ch := by
  intro ch hm
  rw [splitGo] at hm
  by_cases he : acc.isEmpty
  · rw [if_pos he] at hm
    exact hch ch hm
  · rw [if_neg he] at hm
    rcases List.mem_append.mp hm with h | h
    · exact hch ch h
    · simp at h
      rw [h]
      exact hacc

theorem splitGo_cons_dir (target : Nat) (e : Entry) (he : e.isDir = true)
    (rest acc : List Entry) (accSize : Nat) (chunks : List (List Entry)) :
    splitGo target (e :: rest) acc accSize chunks =
      splitGo target rest (acc ++ [e]) accSize chunks := by
  rw [splitGo, if_pos he]

theorem splitGo_cons_file (target : Nat) (e : Entry) (he : e.isDir = false)
    (rest acc : List Entry) (accSize : Nat) (chunks : List (List Entry)) :
    splitGo target (e :: rest) acc accSize chunks =
      if target < accSize + e.size ∧ acc ≠ [] then
        splitGo target rest (ancestorEntries e.path ++ [e]) e.size (chunks ++ [acc])
      else splitGo target rest (acc ++ [e]) (accSize + e.size) chunks := by
  rw [splitGo, if_neg (by simp [he])]

mutual
theorem splitNode_ok (c : FsNode) : ∀ (nm : String) (p : List String)
    (cont : List Entry) (target : Nat) (acc : List Entry) (accSize : Nat)
    (chunks : List (List Entry)),
    (∀ ch ∈ chunks, SelfCont ch) → SelfCont acc → OpenDirs p acc →
    (∀ (acc2 : List Entry) (accSize2 : Nat) (chunks2 : List (List Entry)),
      (∀ ch ∈ chunks2, SelfCont ch) → SelfCont acc2 → OpenDirs p acc2 →
      ∀ ch ∈ splitGo target cont acc2 accSize2 chunks2, SelfCont ch) →
    ∀ ch ∈ splitGo target (walkNode p nm c ++ cont) acc accSize chunks,
      SelfCont ch := by
  cases c with
  | file sz =>
    intro nm p cont target acc accSize chunks hch hacc hop hcont ch hm
    rw [walkNode, List.singleton_append,
      splitGo_cons_file target (Entry.mk (p ++ [nm]) false sz) rfl] at hm
    by_cases hcond : target < accSize + (Entry.mk (p ++ [nm]) false sz).size ∧
        acc ≠ []
    · rw [if_pos hcond] at hm
      refine hcont _ _ _ ?_ (selfCont_restart (p ++ [nm]) sz)
        (openDirs_restart p nm sz) ch hm
      intro ch2 h2
      rcases List.mem_append.mp h2 with h3 | h3
      · exact hch ch2 h3
      · simp at h3
        rw [h3]
        exact hacc
    · rw [if_neg hcond] at hm
      exact hcont _ _ _ hch (selfCont_snoc_file p nm acc sz hacc hop)
        (openDirs_append p acc _ hop) ch hm
  | dir cs =>
    intro nm p cont target acc accSize chunks hch hacc hop hcont ch hm
    rw [walkNode, List.cons_append,
      splitGo_cons_dir target (dirEntry (p ++ [nm])) rfl] at hm
    exact splitForest_ok cs (p ++ [nm]) cont target (acc ++ [dirEntry (p ++ [nm])])
      accSize chunks hch (selfCont_snoc_dir acc _ hacc rfl)
      (openDirs_enter p acc nm hop)
      (fun acc2 s2 ch2 h1 h2 h3 =>
        hcont acc2 s2 ch2 h1 h2 (openDirs_weaken p nm acc2 h3)) ch hm

theorem splitForest_ok (cs : FsForest) : ∀ (p : List String)
    (cont : List Entry) (target : Nat) (acc : List Entry) (accSize : Nat)
    (chunks : List (List Entry)),
    (∀ ch ∈ chunks, SelfCont ch) → SelfCont acc → OpenDirs p acc →
    (∀ (acc2 : List Entry) (accSize2 : Nat) (chunks2 : List (List Entry)),
      (∀ ch ∈ chunks2, SelfCont ch) → SelfCont acc2 → OpenDirs p acc2 →
      ∀ ch ∈ splitGo target cont acc2 accSize2 chunks2, SelfCont ch) →
    ∀ ch ∈ splitGo target (walkForest p cs ++ cont) acc accSize chunks,
      SelfCont ch := by
  cases cs with
  | nil =>
    intro p cont target acc accSize chunks hch hacc hop hcont ch hm
    rw [walkForest, List.nil_append] at hm
    exact hcont acc accSize chunks hch hacc hop ch hm
  | cons nm c rest =>
    intro p cont target acc accSize chunks hch hacc hop hcont ch hm
    rw [walkForest, List.append_assoc] at hm
    exact splitNode_ok c nm p (walkForest p rest ++ cont) target acc accSize
      chunks hch hacc hop
      (fun acc2 s2 ch2 h1 h2 h3 =>
        splitForest_ok rest p cont target acc2 s2 ch2 h1 h2 h3 hcont) ch hm
end

/-- Claim C5 (spec-modelled): for every directory tree and target chunk
size, every chunk produced by `find_and_split_files_to_backup` is
self-contained — each file entry's ancestor directories below the
data-directory root appear as directory entries earlier in the same chunk —
and on the scenario tree (two directories, six 50000-byte files,
target 110000) it returns a total count of 8 and exactly the three expected
chunks, each re-emitting the ancestor directory paths before their files.
The walker and splitter are modelled from the spec (sections 4.C and 4.C.1);
pghoard/basebackup/base.py is not part of the provided sources. -/
theorem find_and_split_files_to_backup_spec :
    (∀ (tree : FsForest) (target : Nat) (ch : List Entry),
        ch ∈ (findAndSplitFilesToBackup tree target).2 → SelfCont ch) ∧
      findAndSplitFilesToBackup splitScenarioTree 110000 =
        (8,
         [[dirEntry ["pgdata", "split_top"],
           Entry.mk ["pgdata", "split_top", "f1"] false 50000,
           Entry.mk ["pgdata", "split_top", "f2"] false 50000],
          [dirEntry ["pgdata", "split_top"],
           Entry.mk ["pgdata", "split_top", "f3"] false 50000,
           dirEntry ["pgdata", "split_top", "split_sub"],
           Entry.mk ["pgdata", "split_top", "split_sub", "f1"] false 50000],
          [dirEntry ["pgdata", "split_top"],
           dirEntry ["pgdata", "split_top", "split_sub"],
           Entry.mk ["pgdata", "split_top", "split_sub", "f2"] false 50000,
           Entry.mk ["pgdata", "split_top", "split_sub", "f3"] false 50000]]) := by
  constructor
  · intro tree target ch hm
    rw [findAndSplitFilesToBackup] at hm
    simp only at hm
    have hwalk : walkForest ["pgdata"] tree = walkForest ["pgdata"] tree ++ [] :=
      (List.append_nil _).symm
    rw [hwalk] at hm
    refine splitForest_ok tree ["pgdata"] [] target [] 0 []
      (fun ch2 h2 => absurd h2 (List.not_mem_nil ch2))
      selfCont_nil
      (fun k hk1 hk2 => absurd hk2 (by simp; omega))
      (fun acc2 s2 ch2 h1 h2 _ => splitGo_nil_ok target acc2 s2 ch2 h1 h2)
      ch hm
  · decide

/-- Witness for C5: in the second chunk of the scenario, the ancestor
directory `pgdata/split_top/split_sub` of the file
`pgdata/split_top/split_sub/f1` appears as a directory entry earlier in the
same chunk. -/
theorem find_and_split_files_to_backup_spec_witness :
    dirEntry (["pgdata", "split_top", "split_sub", "f1"].take 3) ∈
      [dirEntry ["pgdata", "split_top"],
       Entry.mk ["pgdata", "split_top", "f3"] false 50000,
       dirEntry ["pgdata", "split_top", "split_sub"]] :=
  find_and_split_files_to_backup_spec.1 splitScenarioTree 110000
    [dirEntry ["pgdata", "split_top"],
     Entry.mk ["pgdata", "split_top", "f3"] false 50000,
     dirEntry ["pgdata", "split_top", "split_sub"],
     Entry.mk ["pgdata", "split_top", "split_sub", "f1"] false 50000]
    (by decide)
    [dirEntry ["pgdata", "split_top"],
     Entry.mk ["pgdata", "split_top", "f3"] false 50000,
     dirEntry ["pgdata", "split_top", "split_sub"]]
    (Entry.mk ["pgdata", "split_top", "split_sub", "f1"] false 50000) []
    rfl rfl 3 (by decide) (by decide)

end Pghoard
